import Mathlib

/-!
# Verification of the pilcrow static site generator core

Shallow embedding of `pilcrow.py` (a small Python 2 static site generator).
Strings are modelled as `List Char`; Python `dict`s as association lists
preserving insertion order; `die()` (print to stderr and exit 1) and uncaught
Python exceptions are modelled by an explicit outcome type.  The external
collaborators (YAML parser, Markdown renderer, Mako templates, `dateutil`
fuzzy date parsing, the filesystem) are out of scope per the spec and are
modelled abstractly where a claim needs them.
-/

namespace Pilcrow

/-! ## Character helpers

`alphanum = lambda s: re.sub('[^A-Za-z0-9]', '', s)` keeps exactly the ASCII
letters and digits.  Python 2 `unicode.lower()` is modelled on its ASCII
fragment, which coincides with Lean's `Char.toLower`
(`if 65 ≤ n ∧ n ≤ 90 then ofNat (n + 32) else c`). -/

def isAlphanumChar (c : Char) : Bool :=
  decide (65 ≤ c.toNat ∧ c.toNat ≤ 90) ||
  decide (97 ≤ c.toNat ∧ c.toNat ≤ 122) ||
  decide (48 ≤ c.toNat ∧ c.toNat ≤ 57)

/-- A character matched by the regex class `[- ]`. -/
def isSepChar (c : Char) : Bool := c = '-' || c = ' '

theorem toNat_ofNat_of_lt {n : Nat} (h : n < 55296) : (Char.ofNat n).toNat = n := by
  have hv : n.isValidChar := Or.inl h
  rw [Char.ofNat, dif_pos hv]
  rfl

theorem toLower_toLower (c : Char) : c.toLower.toLower = c.toLower := by
  unfold Char.toLower
  by_cases h : 65 ≤ c.toNat ∧ c.toNat ≤ 90
  · rw [if_pos h]
    have h32 : c.toNat + 32 < 55296 := by omega
    rw [if_neg]
    rw [toNat_ofNat_of_lt h32]
    omega
  · rw [if_neg h, if_neg h]

theorem map_eq_self_of {α : Type} {f : α → α} :
    ∀ {l : List α}, (∀ c ∈ l, f c = c) → l.map f = l := by
  intro l
  induction l with
  | nil => intro _; rfl
  | cons x xs ih =>
    intro h
    simp only [List.map_cons, h x (by simp), List.cons.injEq, true_and]
    exact ih (fun c hc => h c (List.mem_cons_of_mem _ hc))

/-! ## `norm_key`

`norm_key = lambda s: re.sub('[- ]+', '_', s.lower())` — lower-case, then
replace every maximal run of hyphens/spaces by a single underscore.  The run
replacement is implemented by a left-to-right scan whose flag records whether
the scanner currently stands inside a `[- ]+` run (the underscore is emitted
at the first character of each run). -/

def collapseSepsAux (inRun : Bool) : List Char → List Char
  | [] => []
  | c :: cs =>
    if isSepChar c then
      if inRun then collapseSepsAux true cs else '_' :: collapseSepsAux true cs
    else c :: collapseSepsAux false cs

def norm_key (s : List Char) : List Char :=
  collapseSepsAux false (s.map Char.toLower)

theorem mem_collapseSepsAux {c : Char} :
    ∀ {l : List Char} {b : Bool}, c ∈ collapseSepsAux b l → c = '_' ∨ c ∈ l := by
  intro l
  induction l with
  | nil => intro b h; simp [collapseSepsAux] at h
  | cons x cs ih =>
    intro b h
    by_cases hx : isSepChar x = true
    · rw [collapseSepsAux, if_pos hx] at h
      cases b with
      | true =>
        rcases ih h with h' | h'
        · exact Or.inl h'
        · exact Or.inr (List.mem_cons_of_mem _ h')
      | false =>
        rcases List.mem_cons.mp h with h' | h'
        · exact Or.inl h'
        · rcases ih h' with h'' | h''
          · exact Or.inl h''
          · exact Or.inr (List.mem_cons_of_mem _ h'')
    · rw [collapseSepsAux, if_neg hx] at h
      rcases List.mem_cons.mp h with h' | h'
      · exact Or.inr (by simp [h'])
      · rcases ih h' with h'' | h''
        · exact Or.inl h''
        · exact Or.inr (List.mem_cons_of_mem _ h'')

theorem sep_collapseSepsAux {c : Char} :
    ∀ {l : List Char} {b : Bool}, c ∈ collapseSepsAux b l → isSepChar c = false := by
  intro l
  induction l with
  | nil => intro b h; simp [collapseSepsAux] at h
  | cons x cs ih =>
    intro b h
    by_cases hx : isSepChar x = true
    · rw [collapseSepsAux, if_pos hx] at h
      cases b with
      | true => exact ih h
      | false =>
        rcases List.mem_cons.mp h with h' | h'
        · subst h'; decide
        · exact ih h'
    · rw [collapseSepsAux, if_neg hx] at h
      rcases List.mem_cons.mp h with h' | h'
      · subst h'; simpa using hx
      · exact ih h'

theorem collapseSepsAux_eq_self :
    ∀ {l : List Char}, (∀ c ∈ l, isSepChar c = false) → ∀ b, collapseSepsAux b l = l := by
  intro l
  induction l with
  | nil => intro _ b; rfl
  | cons x cs ih =>
    intro h b
    have hx : isSepChar x = false := h x (by simp)
    rw [collapseSepsAux, if_neg (by simp [hx])]
    rw [ih (fun c hc => h c (List.mem_cons_of_mem _ hc)) false]

/-- C10: the key-canonicalization function `normKey` is idempotent: its output
contains no upper-case ASCII letters, hyphens or spaces, so a second
application changes nothing. -/
theorem C10_norm_key_idempotent (s : List Char) :
    norm_key (norm_key s) = norm_key s := by
  unfold norm_key
  rw [map_eq_self_of (fun c hc => ?_)]
  · exact collapseSepsAux_eq_self (fun c hc => sep_collapseSepsAux hc) false
  · rcases mem_collapseSepsAux hc with h' | h'
    · subst h'; decide
    · rcases List.mem_map.mp h' with ⟨a, _, rfl⟩
      exact toLower_toLower a

/-! ## `norm_tags`

```
def norm_tags(obj):
    tags = is_str(obj) and obj.split(',' in obj and ',' or None) or obj
    return tuple(filter(bool, (alphanum(tag) for tag in tags)))
```

String branch: if the string contains a comma, `split(',')` (keeping empty
pieces); otherwise `split(None)` (split on whitespace runs, dropping empty
pieces).  When the split result is falsy (only possible for the empty or
all-whitespace string, where `split(None)` gives `[]`), the `or obj` fallback
iterates the string itself, yielding its one-character substrings.  Each
token is stripped to its alphanumeric characters; empty results are
dropped. -/

def isSpaceChar (c : Char) : Bool :=
  c = ' ' || c = '\t' || c = '\n' || c = '\r' || c = '\x0b' || c = '\x0c'

def splitOnPred (p : Char → Bool) : List Char → List (List Char)
  | [] => [[]]
  | c :: cs =>
    match splitOnPred p cs with
    | [] => [[]]
    | t :: ts => if p c then [] :: t :: ts else (c :: t) :: ts

def norm_tags (s : List Char) : List (List Char) :=
  let pieces :=
    if ',' ∈ s then splitOnPred (fun c => c = ',') s
    else (splitOnPred isSpaceChar s).filter (fun t => t ≠ [])
  let tags := if pieces = [] then s.map (fun c => [c]) else pieces
  (tags.map (fun t => t.filter isAlphanumChar)).filter (fun t => t ≠ [])

/-- C8: `normTags "a, b,, c"` yields `("a","b","c")`: the string is split on
commas (since one is present), each token is stripped to its alphanumeric
characters, empty tokens are dropped, order is preserved.  The further
conjuncts exercise the remaining behaviours the claim lists: whitespace
splitting when no comma is present, no deduplication of repeats, and
stripping of non-alphanumeric characters inside tokens. -/
theorem C8_norm_tags :
    norm_tags "a, b,, c".data = ["a".data, "b".data, "c".data] ∧
    norm_tags "a b".data = ["a".data, "b".data] ∧
    norm_tags "b, a, a".data = ["b".data, "a".data, "a".data] ∧
    norm_tags "C++, F#!".data = ["C".data, "F".data] := by
  decide

/-! ## `join_url`

```
def join_url(*parts, **kwargs):
    ext = (kwargs.get('ext', 1) and not site['clean_urls']) and '.html' or ''
    return re.sub('//+', '/', '/'.join(str(s) for s in parts if s)) + ext
```

The global `site['clean_urls']` flag and the `ext` keyword become explicit
parameters.  `re.sub('//+', '/', _)` collapses every maximal run of slashes
to a single slash; as for `norm_key` the run replacement is a left-to-right
scan with an in-run flag (the slash is emitted at the first character of
each run). -/

def collapseSlashesAux (inRun : Bool) : List Char → List Char
  | [] => []
  | c :: cs =>
    if c = '/' then
      if inRun then collapseSlashesAux true cs else '/' :: collapseSlashesAux true cs
    else c :: collapseSlashesAux false cs

def joinSlash : List (List Char) → List Char
  | [] => []
  | [p] => p
  | p :: q :: ps => p ++ '/' :: joinSlash (q :: ps)

def join_url (clean_urls : Bool) (ext : Bool) (parts : List (List Char)) : List Char :=
  let e := if ext && !clean_urls then ".html".data else []
  collapseSlashesAux false (joinSlash (parts.filter (fun t => t ≠ []))) ++ e

/-- C7 counterexample: in clean-URL mode `join_url("blog", "post", ext=true)`
does not return `"/blog/post"` — the code merely joins the given segments,
producing `"blog/post"` with no leading slash. -/
theorem C7_counterexample :
    ¬ (join_url true true ["blog".data, "post".data] = "/blog/post".data ∧
       join_url false true ["blog".data, "post".data] = "/blog/post.html".data) := by
  decide

/-- C7 amended: in clean-URL mode `join_url("blog", "post", ext=true)`
returns `"blog/post"`, and in non-clean mode it returns `"blog/post.html"`
(no leading slash is added: the function joins exactly the given
segments). -/
theorem C7_join_url :
    join_url true true ["blog".data, "post".data] = "blog/post".data ∧
    join_url false true ["blog".data, "post".data] = "blog/post.html".data := by
  decide

/-! ## Content file splitting (`ContentPage.__init__`, lines 109-111)

```
data = fp.read().split('\n\n', 1)
head = yaml.load(data.pop(0))
body = data and data.pop() or ''
```

The file text is split at the first `"\n\n"` (blank-line boundary).  The
piece before the boundary is handed to the YAML parser as front matter; the
piece after it is the body, or `''` when there is no boundary. -/

def splitHeadBody : List Char → List Char × Option (List Char)
  | [] => ([], none)
  | [c] => ([c], none)
  | c :: c2 :: rest =>
    if c = '\n' ∧ c2 = '\n' then ([], some rest)
    else
      let r := splitHeadBody (c2 :: rest)
      (c :: r.1, r.2)

def hasBlankBoundary : List Char → Bool
  | [] => false
  | [_] => false
  | c :: c2 :: rest => (c = '\n' && c2 = '\n') || hasBlankBoundary (c2 :: rest)

/-- `(front matter source, body)` as computed by `ContentPage.__init__`. -/
def contentSplit (text : List Char) : List Char × List Char :=
  match splitHeadBody text with
  | (h, some b) => (h, b)
  | (h, none) => (h, [])

theorem splitHeadBody_of_no_boundary :
    ∀ {l : List Char}, hasBlankBoundary l = false → splitHeadBody l = (l, none) := by
  intro l
  induction l with
  | nil => intro _; rfl
  | cons c rest ih =>
    intro h
    cases rest with
    | nil => rfl
    | cons c2 rest' =>
      rw [hasBlankBoundary] at h
      rcases Bool.or_eq_false_iff.mp h with ⟨h1, h2⟩
      rw [splitHeadBody, if_neg (by simpa using h1)]
      rw [ih h2]

/-- C1 counterexample: for the content text `"title: hi"` (which contains no
blank-line boundary) the split does not put the whole text into the body with
empty front matter — it does the opposite. -/
theorem C1_counterexample :
    ¬ ((contentSplit "title: hi".data).1 = [] ∧
       (contentSplit "title: hi".data).2 = "title: hi".data) := by
  decide

/-- C1 amended: for every content text containing no blank-line boundary, the
entire text is handed to the YAML front-matter parser and the body is empty
(so the rendered `content` is the Markdown rendering of the empty string). -/
theorem C1_contentSplit_no_boundary (text : List Char)
    (h : hasBlankBoundary text = false) :
    contentSplit text = (text, []) := by
  rw [contentSplit, splitHeadBody_of_no_boundary h]

/-- Witness for `C1_contentSplit_no_boundary` at the text `"title: hi"`. -/
theorem C1_contentSplit_no_boundary_witness :
    hasBlankBoundary "title: hi".data = false ∧
    contentSplit "title: hi".data = ("title: hi".data, []) :=
  ⟨by decide, C1_contentSplit_no_boundary "title: hi".data (by decide)⟩

/-! ## The page data model

The source represents a page as a dynamically-keyed `dict`; following the
spec's data model it is embedded as a record of the fields the claims touch.
`date`/`posted` hold the result of `dateutil`'s fuzzy parse, of which only
the calendar date matters here; `timestamp = lambda dt: dt and
int(time.mktime(dt.timetuple())) or 0` is modelled by a strictly monotone
encoding of the calendar date into seconds (`mktime` is strictly monotone on
dates), and `0` for a missing date.  `prevpost`/`nextpost` hold the id of
the neighbouring page (a by-id weak reference, per the spec's design
note). -/

structure PDate where
  year : Nat
  month : Nat
  day : Nat
deriving DecidableEq

def timestampD : Option PDate → Nat
  | none => 0
  | some d => ((d.year * 12 + d.month) * 31 + d.day) * 86400

structure Page where
  id : List Char
  title : List Char := []
  template : List Char := []
  date : Option PDate := none
  posted : Option PDate := none
  prevpost : Option (List Char) := none
  nextpost : Option (List Char) := none
deriving DecidableEq

/-- `sortkey_origin = lambda self: (timestamp(self.date), self.id)` -/
def sortkey_origin (p : Page) : Nat × List Char :=
  (timestampD p.date, p.id)

/-- `sortkey_posted = lambda self: (timestamp(self.posted or self.date), self.id)` -/
def sortkey_posted (p : Page) : Nat × List Char :=
  (timestampD (match p.posted with | some x => some x | none => p.date), p.id)

/-- Python string `<`: lexicographic comparison by code point. -/
def strLt : List Char → List Char → Bool
  | [], [] => false
  | [], _ :: _ => true
  | _ :: _, [] => false
  | a :: as, b :: bs => if a = b then strLt as bs else decide (a.toNat < b.toNat)

/-- Python tuple `<` on a `(timestamp, id)` sort key. -/
def keyLt (a b : Nat × List Char) : Bool :=
  decide (a.1 < b.1) || (decide (a.1 = b.1) && strLt a.2 b.2)

theorem strLt_asymm : ∀ {a b : List Char}, strLt a b = true → strLt b a = false := by
  intro a
  induction a with
  | nil =>
    intro b h
    cases b with
    | nil => simp [strLt] at h
    | cons y ys => rfl
  | cons x xs ih =>
    intro b h
    cases b with
    | nil => simp [strLt] at h
    | cons y ys =>
      rw [strLt] at h ⊢
      by_cases hxy : x = y
      · subst hxy
        rw [if_pos rfl] at h ⊢
        exact ih h
      · rw [if_neg hxy] at h
        rw [if_neg (fun hyx => hxy hyx.symm)]
        simp only [decide_eq_true_eq] at h
        simpa using Nat.le_of_lt h

theorem keyLt_asymm {a b : Nat × List Char} (h : keyLt a b = true) : keyLt b a = false := by
  rw [keyLt] at h ⊢
  rcases Bool.or_eq_true_iff.mp h with h' | h'
  · simp only [decide_eq_true_eq] at h'
    simp [Nat.not_lt_of_lt h', Nat.ne_of_gt h']
  · rcases Bool.and_eq_true_iff.mp h' with ⟨h1, h2⟩
    simp only [decide_eq_true_eq] at h1
    simp [h1, strLt_asymm h2]

theorem keyLt_of_fst_lt {a b : Nat} (h : a < b) (x y : List Char) :
    keyLt (a, x) (b, y) = true := by
  simp [keyLt, h]

theorem keyLt_of_fst_gt {a b : Nat} (h : b < a) (x y : List Char) :
    keyLt (a, x) (b, y) = false := by
  simp [keyLt, Nat.not_lt_of_lt h, Nat.ne_of_gt h]

/-! ## Sorting

Python's `sorted(xs, key=k)` is a stable sort by `k` under tuple `<`;
it is modelled by a stable insertion sort: an element is inserted after
every strictly smaller element and before the first element that is not
strictly smaller, so elements with equal keys keep their original order. -/

def insertBy {α : Type} (lt : α → α → Bool) (x : α) : List α → List α
  | [] => [x]
  | y :: ys => if lt y x then y :: insertBy lt x ys else x :: y :: ys

def sortBy {α : Type} (lt : α → α → Bool) : List α → List α
  | [] => []
  | x :: xs => insertBy lt x (sortBy lt xs)

def ltOrigin (a b : Page) : Bool := keyLt (sortkey_origin a) (sortkey_origin b)

def ltPosted (a b : Page) : Bool := keyLt (sortkey_posted a) (sortkey_posted b)

/-! ## The page registry (`PageManager`)

`self.pages` is a `dict` from id to page, modelled as an association list in
insertion order.  `die(msg)` (write `msg` to stderr, `sys.exit(1)`) is the
`fatalDie` outcome; an uncaught Python exception (here: `KeyError` from a
plain `dict` lookup) is the `exn` outcome. -/

inductive PyOutcome (α : Type) where
  | ok (val : α)
  | fatalDie (msg : List Char)
  | exn (name : List Char)
deriving DecidableEq

abbrev Registry := List (List Char × Page)

def pmLookup : Registry → List Char → Option Page
  | [], _ => none
  | (k, v) :: r, i => if k = i then some v else pmLookup r i

/--
```
def add(self, page):
    if page.id in self.pages:
        die('duplicate page id: %s' % page.id)
    self.pages[page.id] = page
```
-/
def pmAdd (m : Registry) (p : Page) : PyOutcome Registry :=
  if (pmLookup m p.id).isSome then
    PyOutcome.fatalDie ("duplicate page id: ".data ++ p.id)
  else PyOutcome.ok (m ++ [(p.id, p)])

/--
```
def __getitem__(self, id):
    return self.pages[id]
```
A plain `dict` subscript: raises `KeyError` when the id is absent.
-/
def pmGet (m : Registry) (i : List Char) : PyOutcome Page :=
  match pmLookup m i with
  | some p => PyOutcome.ok p
  | none => PyOutcome.exn "KeyError".data

theorem pmLookup_append_left_none {m : Registry} {i : List Char}
    (h : pmLookup m i = none) (l : Registry) :
    pmLookup (m ++ l) i = pmLookup l i := by
  induction m with
  | nil => rfl
  | cons e r ih =>
    obtain ⟨k, v⟩ := e
    rw [pmLookup] at h
    by_cases hk : k = i
    · rw [if_pos hk] at h; cases h
    · rw [List.cons_append, pmLookup, if_neg hk]
      exact ih (by rwa [if_neg hk] at h)

theorem pmLookup_none_not_mem {m : Registry} {i : List Char}
    (h : pmLookup m i = none) : ∀ e ∈ m, e.1 ≠ i := by
  induction m with
  | nil => intro e he; cases he
  | cons e r ih =>
    obtain ⟨k, v⟩ := e
    rw [pmLookup] at h
    by_cases hk : k = i
    · rw [if_pos hk] at h; cases h
    · intro e' he'
      rcases List.mem_cons.mp he' with he' | he'
      · subst he'; exact hk
      · exact ih (by rwa [if_neg hk] at h) e' he'

/-- C2: adding a page to a registry that does not yet hold its id succeeds,
adding a second page with the same id then fails fatally (`die('duplicate
page id: …')`, no silent overwrite), and afterwards the registry holds
exactly the first page under that id (one entry, and lookup returns the
first page). -/
theorem C2_add_duplicate (m : Registry) (p1 p2 : Page)
    (hid : p2.id = p1.id) (hfresh : pmLookup m p1.id = none) :
    pmAdd m p1 = PyOutcome.ok (m ++ [(p1.id, p1)]) ∧
    pmAdd (m ++ [(p1.id, p1)]) p2 =
      PyOutcome.fatalDie ("duplicate page id: ".data ++ p2.id) ∧
    pmLookup (m ++ [(p1.id, p1)]) p1.id = some p1 ∧
    ((m ++ [(p1.id, p1)]).filter (fun e => decide (e.1 = p1.id))).length = 1 := by
  have hlook : pmLookup (m ++ [(p1.id, p1)]) p1.id = some p1 := by
    rw [pmLookup_append_left_none hfresh, pmLookup, if_pos rfl]
  refine ⟨?_, ?_, hlook, ?_⟩
  · rw [pmAdd, if_neg (by rw [hfresh]; simp)]
  · rw [pmAdd, if_pos (by rw [hid, hlook]; rfl)]
  · rw [List.filter_append]
    have hm : m.filter (fun e => decide (e.1 = p1.id)) = [] := by
      rw [List.filter_eq_nil_iff]
      intro e he
      simpa using pmLookup_none_not_mem hfresh e he
    rw [hm]
    simp

/-- Witness for `C2_add_duplicate`: the empty registry and two distinct pages
sharing the id `"index"`. -/
theorem C2_add_duplicate_witness :
    ({ id := "index".data, title := "second".data } : Page).id =
      ({ id := "index".data } : Page).id ∧
    pmLookup [] ({ id := "index".data } : Page).id = none ∧
    pmAdd [] ({ id := "index".data } : Page) =
      PyOutcome.ok [("index".data, { id := "index".data })] ∧
    pmAdd [("index".data, { id := "index".data })]
        ({ id := "index".data, title := "second".data } : Page) =
      PyOutcome.fatalDie ("duplicate page id: ".data ++ "index".data) := by
  have h := C2_add_duplicate [] ({ id := "index".data } : Page)
    ({ id := "index".data, title := "second".data } : Page) (by decide) rfl
  exact ⟨by decide, rfl, h.1, h.2.1⟩

/-- C5 counterexample: looking up the id `"about"` in an empty registry
raises an uncaught `KeyError` exception — it is not the fatal one-line
`die` diagnostic (`"not found"`) the claim describes. -/
theorem C5_counterexample :
    pmGet [] "about".data = PyOutcome.exn "KeyError".data ∧
    pmGet [] "about".data ≠ PyOutcome.fatalDie "not found".data := by
  decide

/-- C5 amended: for every registry and every id not present in it, the lookup
`get(id)` raises an uncaught `KeyError` exception (a plain `dict` subscript
miss), not a fatal build error with a "not found" diagnostic. -/
theorem C5_get_missing (m : Registry) (i : List Char)
    (h : pmLookup m i = none) :
    pmGet m i = PyOutcome.exn "KeyError".data := by
  rw [pmGet, h]

/-- Witness for `C5_get_missing` at the empty registry and id `"about"`. -/
theorem C5_get_missing_witness :
    pmLookup [] "about".data = none ∧
    pmGet [] "about".data = PyOutcome.exn "KeyError".data :=
  ⟨rfl, C5_get_missing [] "about".data rfl⟩

/-! ## Archive derivation (`neighbours` and the per-year link loop)

```
def neighbours(iterable):
    "1..4 -> (None,1,2), (1,2,3), (2,3,4), (3,4,None)"
    L = list(iterable)
    a = [None] + L[:-1]
    b = L[1:] + [None]
    return izip(a, L, b)

for year, posts in sorted(years.items()):
    posts = sorted(posts, key=Page.sortkey_origin)
    pages.add(ArchivePage(posts, year))
    for prevpost, post, nextpost in neighbours(posts):
        post['prevpost'], post['nextpost'] = prevpost, nextpost
```

The loop body for one year: sort that year's dated posts by origin key and
assign each post its chronological neighbours (the neighbouring page object
in the source; its id here, the by-id weak reference of the spec's design
note). -/

def neighbours {α : Type} (l : List α) : List (Option α × α × Option α) :=
  ((none :: l.dropLast.map some).zip (l.zip (l.tail.map some ++ [none])))

def assignNeighbours (posts : List Page) : List Page :=
  (neighbours posts).map
    (fun t => { t.2.1 with prevpost := t.1.map Page.id, nextpost := t.2.2.map Page.id })

/-- The prev/next wiring the build performs for one calendar year's posts. -/
def archiveYearLinks (posts : List Page) : List Page :=
  assignNeighbours (sortBy ltOrigin posts)

/-- C3: for a calendar year with exactly three dated content posts
`P1 < P2 < P3` in origin order, archive derivation wires
`P1.prevpost = null, P1.nextpost = P2`, `P2.prevpost = P1,
P2.nextpost = P3`, `P3.prevpost = P2, P3.nextpost = null` — a per-year
chain with nulls at the year's boundaries. -/
theorem C3_year_chain (y : Nat) (p1 p2 p3 : Page) (d1 d2 d3 : PDate)
    (hd1 : p1.date = some d1) (hd2 : p2.date = some d2) (hd3 : p3.date = some d3)
    (hy1 : d1.year = y) (hy2 : d2.year = y) (hy3 : d3.year = y)
    (h12 : ltOrigin p1 p2 = true) (h23 : ltOrigin p2 p3 = true) :
    archiveYearLinks [p1, p2, p3] =
      [{ p1 with prevpost := none, nextpost := some p2.id },
       { p2 with prevpost := some p1.id, nextpost := some p3.id },
       { p3 with prevpost := some p2.id, nextpost := none }] := by
  have h21 : ltOrigin p2 p1 = false := keyLt_asymm h12
  have h32 : ltOrigin p3 p2 = false := keyLt_asymm h23
  have hsort : sortBy ltOrigin [p1, p2, p3] = [p1, p2, p3] := by
    simp [sortBy, insertBy, h21, h32]
  rw [archiveYearLinks, hsort]
  rfl

/-- Witness for `C3_year_chain`: three concrete 2020 posts. -/
theorem C3_year_chain_witness :
    ({ id := "2020/a".data, date := some ⟨2020, 1, 10⟩ } : Page).date = some ⟨2020, 1, 10⟩ ∧
    ({ id := "2020/b".data, date := some ⟨2020, 3, 5⟩ } : Page).date = some ⟨2020, 3, 5⟩ ∧
    ({ id := "2020/c".data, date := some ⟨2020, 11, 1⟩ } : Page).date = some ⟨2020, 11, 1⟩ ∧
    (⟨2020, 1, 10⟩ : PDate).year = 2020 ∧
    (⟨2020, 3, 5⟩ : PDate).year = 2020 ∧
    (⟨2020, 11, 1⟩ : PDate).year = 2020 ∧
    ltOrigin { id := "2020/a".data, date := some ⟨2020, 1, 10⟩ }
      { id := "2020/b".data, date := some ⟨2020, 3, 5⟩ } = true ∧
    ltOrigin { id := "2020/b".data, date := some ⟨2020, 3, 5⟩ }
      { id := "2020/c".data, date := some ⟨2020, 11, 1⟩ } = true ∧
    archiveYearLinks
      [{ id := "2020/a".data, date := some ⟨2020, 1, 10⟩ },
       { id := "2020/b".data, date := some ⟨2020, 3, 5⟩ },
       { id := "2020/c".data, date := some ⟨2020, 11, 1⟩ }] =
      [{ id := "2020/a".data, date := some ⟨2020, 1, 10⟩, prevpost := none,
         nextpost := some "2020/b".data },
       { id := "2020/b".data, date := some ⟨2020, 3, 5⟩, prevpost := some "2020/a".data,
         nextpost := some "2020/c".data },
       { id := "2020/c".data, date := some ⟨2020, 11, 1⟩, prevpost := some "2020/b".data,
         nextpost := none }] := by
  refine ⟨rfl, rfl, rfl, rfl, rfl, rfl, by decide, by decide, ?_⟩
  exact C3_year_chain 2020 _ _ _ _ _ _ rfl rfl rfl rfl rfl rfl (by decide) (by decide)

/-! ## The `select` query (`build`, lines 238-243)

```
def select(limit=None, dated=True, chrono=False, sortby_origin=None):
    if sortby_origin is None: sortby_origin = bool(chrono)
    results = pages.all(sortby_origin)
    if not chrono: results.reverse()
    if dated: results = [page for page in results if page.date]
    return tuple(results)[:limit]
```

`pages.all(sortby_origin)` sorts every page by the origin key when
`sortby_origin` else by the posted key. -/

def pmAll (pages : List Page) (sortbyOrigin : Bool) : List Page :=
  if sortbyOrigin then sortBy ltOrigin pages else sortBy ltPosted pages

def select (pages : List Page) (limit : Option Nat) (dated : Bool)
    (chrono : Bool) (sortbyOrigin : Option Bool) : List Page :=
  let sbo := match sortbyOrigin with | none => chrono | some b => b
  let r := pmAll pages sbo
  let r := if chrono then r else r.reverse
  let r := if dated then r.filter (fun p => p.date.isSome) else r
  match limit with
  | none => r
  | some n => r.take n

/-- C6: for three content pages dated 2020-01-01, 2020-06-01 and 2021-01-01
(no explicit posted date, so `posted` falls back to `date`) in a registry,
`select(dated=true, chrono=false)` returns them newest posted-date first and
`select(chrono=true)` returns exactly the reverse of that sequence. -/
theorem C6_select_order (p1 p2 p3 : Page)
    (hd1 : p1.date = some ⟨2020, 1, 1⟩) (hd2 : p2.date = some ⟨2020, 6, 1⟩)
    (hd3 : p3.date = some ⟨2021, 1, 1⟩)
    (hp1 : p1.posted = none) (hp2 : p2.posted = none) (hp3 : p3.posted = none) :
    select [p1, p2, p3] none true false none = [p3, p2, p1] ∧
    select [p1, p2, p3] none true true none = [p1, p2, p3] ∧
    select [p1, p2, p3] none true true none =
      (select [p1, p2, p3] none true false none).reverse := by
  have k1 : sortkey_posted p1 = (timestampD (some ⟨2020, 1, 1⟩), p1.id) := by
    rw [sortkey_posted, hp1, hd1]
  have k2 : sortkey_posted p2 = (timestampD (some ⟨2020, 6, 1⟩), p2.id) := by
    rw [sortkey_posted, hp2, hd2]
  have k3 : sortkey_posted p3 = (timestampD (some ⟨2021, 1, 1⟩), p3.id) := by
    rw [sortkey_posted, hp3, hd3]
  have o1 : sortkey_origin p1 = (timestampD (some ⟨2020, 1, 1⟩), p1.id) := by
    rw [sortkey_origin, hd1]
  have o2 : sortkey_origin p2 = (timestampD (some ⟨2020, 6, 1⟩), p2.id) := by
    rw [sortkey_origin, hd2]
  have o3 : sortkey_origin p3 = (timestampD (some ⟨2021, 1, 1⟩), p3.id) := by
    rw [sortkey_origin, hd3]
  have t12 : timestampD (some ⟨2020, 1, 1⟩) < timestampD (some ⟨2020, 6, 1⟩) := by decide
  have t23 : timestampD (some ⟨2020, 6, 1⟩) < timestampD (some ⟨2021, 1, 1⟩) := by decide
  have hp21 : ltPosted p2 p1 = false := by
    rw [ltPosted, k1, k2]; exact keyLt_of_fst_gt t12 _ _
  have hp32 : ltPosted p3 p2 = false := by
    rw [ltPosted, k2, k3]; exact keyLt_of_fst_gt t23 _ _
  have ho21 : ltOrigin p2 p1 = false := by
    rw [ltOrigin, o1, o2]; exact keyLt_of_fst_gt t12 _ _
  have ho32 : ltOrigin p3 p2 = false := by
    rw [ltOrigin, o2, o3]; exact keyLt_of_fst_gt t23 _ _
  have hsortP : sortBy ltPosted [p1, p2, p3] = [p1, p2, p3] := by
    simp [sortBy, insertBy, hp21, hp32]
  have hsortO : sortBy ltOrigin [p1, p2, p3] = [p1, p2, p3] := by
    simp [sortBy, insertBy, ho21, ho32]
  refine ⟨?_, ?_, ?_⟩ <;>
    simp [select, pmAll, hsortP, hsortO, hd1, hd2, hd3]

/-- Witness for `C6_select_order`: three concrete pages with those dates. -/
theorem C6_select_order_witness :
    ({ id := "2020/a".data, date := some ⟨2020, 1, 1⟩ } : Page).date = some ⟨2020, 1, 1⟩ ∧
    ({ id := "2020/b".data, date := some ⟨2020, 6, 1⟩ } : Page).date = some ⟨2020, 6, 1⟩ ∧
    ({ id := "2021/c".data, date := some ⟨2021, 1, 1⟩ } : Page).date = some ⟨2021, 1, 1⟩ ∧
    select
      [{ id := "2020/a".data, date := some ⟨2020, 1, 1⟩ },
       { id := "2020/b".data, date := some ⟨2020, 6, 1⟩ },
       { id := "2021/c".data, date := some ⟨2021, 1, 1⟩ }] none true false none =
      [{ id := "2021/c".data, date := some ⟨2021, 1, 1⟩ },
       { id := "2020/b".data, date := some ⟨2020, 6, 1⟩ },
       { id := "2020/a".data, date := some ⟨2020, 1, 1⟩ }] := by
  refine ⟨rfl, rfl, rfl, ?_⟩
  exact (C6_select_order _ _ _ rfl rfl rfl rfl rfl rfl).1

/-! ## Decimal rendering of a year (`str(year)`)

`join_url(self.date.year, id, ext=False)` stringifies the year with `str`.
Decimal rendering is defined with an explicit fuel argument (the number
itself suffices as fuel, since a number needs at most `n` digit steps). -/

def digitChar (d : Nat) : Char := Char.ofNat (48 + d)

def natDigitsAux : Nat → Nat → List Char
  | 0, _ => []
  | fuel + 1, n =>
    if n < 10 then [digitChar n]
    else natDigitsAux fuel (n / 10) ++ [digitChar (n % 10)]

/-- `str(n)` for a natural number. -/
def natDigits (n : Nat) : List Char := natDigitsAux (n + 1) n

theorem mem_natDigitsAux {c : Char} :
    ∀ {fuel n : Nat}, c ∈ natDigitsAux fuel n → ∃ d, d < 10 ∧ c = digitChar d := by
  intro fuel
  induction fuel with
  | zero => intro n h; simp [natDigitsAux] at h
  | succ fuel ih =>
    intro n h
    rw [natDigitsAux] at h
    by_cases hn : n < 10
    · rw [if_pos hn] at h
      rcases List.mem_singleton.mp h with h
      exact ⟨n, hn, h⟩
    · rw [if_neg hn] at h
      rcases List.mem_append.mp h with h | h
      · exact ih h
      · rcases List.mem_singleton.mp h with h
        exact ⟨n % 10, Nat.mod_lt _ (by omega), h⟩

theorem natDigitsAux_ne_nil {fuel n : Nat} (h : 0 < fuel) :
    natDigitsAux fuel n ≠ [] := by
  cases fuel with
  | zero => omega
  | succ fuel =>
    rw [natDigitsAux]
    by_cases hn : n < 10
    · rw [if_pos hn]; simp
    · rw [if_neg hn]; simp

theorem natDigits_ne_nil (n : Nat) : natDigits n ≠ [] :=
  natDigitsAux_ne_nil (by omega)

theorem digitChar_ne_slash {d : Nat} (h : d < 10) : digitChar d ≠ '/' := by
  intro heq
  have h1 : (digitChar d).toNat = 48 + d := toNat_ofNat_of_lt (by omega)
  have h2 : ('/' : Char).toNat = 47 := by decide
  rw [heq, h2] at h1
  omega

theorem slash_not_mem_natDigits (n : Nat) : '/' ∉ natDigits n := by
  intro h
  rcases mem_natDigitsAux h with ⟨d, hd, hc⟩
  exact digitChar_ne_slash hd hc.symm

theorem collapseSlashesAux_of_no_slash :
    ∀ {l : List Char}, '/' ∉ l → ∀ b, collapseSlashesAux b l = l := by
  intro l
  induction l with
  | nil => intro _ b; rfl
  | cons x cs ih =>
    intro h b
    have hx : x ≠ '/' := fun hx => h (by simp [hx])
    rw [collapseSlashesAux, if_neg (fun hx' => hx hx')]
    rw [ih (fun hc => h (List.mem_cons_of_mem _ hc)) false]

theorem collapseSlashesAux_single_slash :
    ∀ {xs ys : List Char}, '/' ∉ xs → '/' ∉ ys →
      collapseSlashesAux false (xs ++ '/' :: ys) = xs ++ '/' :: ys := by
  intro xs
  induction xs with
  | nil =>
    intro ys _ hy
    rw [List.nil_append, collapseSlashesAux, if_pos rfl]
    rw [collapseSlashesAux_of_no_slash hy true]
    simp
  | cons x cs ih =>
    intro ys hx hy
    have hx' : x ≠ '/' := fun h => hx (by simp [h])
    rw [List.cons_append, collapseSlashesAux, if_neg (fun h => hx' h)]
    rw [ih (fun hc => hx (List.mem_cons_of_mem _ hc)) hy]

/-! ## The dated-page rewrite in `ContentPage.__init__` (lines 113-123)

```
for key, val in head.items():
    key = norm_key(key)
    self[key] = self.NORM.get(key, identity)(val)
if self.date:
    self.update({
        'id': join_url(self.date.year, id, ext=False),
        'template': self.template or 'entry',
        ...
        'prevpost': None,
        'nextpost': None,
    })
```

The front-matter loop's effect on the fields a claim touches is summarised by
its outcome: `fmDate` is the `norm_time`-parsed value of a supplied date key
(`none` when absent), `fmTemplate` the supplied template string (`none` when
the key is absent).  The page starts from the `Page.__init__` defaults with
`id` the source file's base name.  `join_url` filters out falsy parts before
stringifying, so a year of `0` (impossible for a real `datetime`, whose year
is at least 1) would be dropped as the int `0` is falsy. -/

def contentPage (clean : Bool) (base : List Char) (fmDate : Option PDate)
    (fmTemplate : Option (List Char)) : Page :=
  let p : Page := { id := base }
  let p : Page := { p with date := fmDate }
  let p : Page := match fmTemplate with | none => p | some t => { p with template := t }
  match p.date with
  | some d =>
      { p with
        id := join_url clean false [if d.year = 0 then [] else natDigits d.year, base],
        template := if p.template = [] then "entry".data else p.template,
        prevpost := none, nextpost := none }
  | none => p

/-- C4: for every valid front matter that sets a date, the resulting
`ContentPage` has id `{year}/{basename}` and template `"entry"` unless the
front matter supplied a (non-empty) template.  The base name of a content
file is non-empty and contains no slash, and a `datetime` year is at least
1. -/
theorem C4_dated_id_template (clean : Bool) (base : List Char) (d : PDate)
    (fmT : Option (List Char))
    (hb : base ≠ []) (hs : '/' ∉ base) (hy : 1 ≤ d.year) :
    (contentPage clean base (some d) fmT).id = natDigits d.year ++ '/' :: base ∧
    (fmT = none → (contentPage clean base (some d) fmT).template = "entry".data) ∧
    (∀ t, fmT = some t → t ≠ [] →
      (contentPage clean base (some d) fmT).template = t) := by
  have hid : join_url clean false [if d.year = 0 then [] else natDigits d.year, base] =
      natDigits d.year ++ '/' :: base := by
    rw [if_neg (by omega)]
    rw [join_url]
    have hfil : [natDigits d.year, base].filter (fun t => decide (t ≠ [])) =
        [natDigits d.year, base] := by
      simp [List.filter, natDigits_ne_nil d.year, hb]
    simp only [hfil]
    have hjoin : joinSlash [natDigits d.year, base] = natDigits d.year ++ '/' :: base := rfl
    rw [hjoin, collapseSlashesAux_single_slash (slash_not_mem_natDigits d.year) hs]
    simp
  cases fmT with
  | none =>
    refine ⟨hid, fun _ => rfl, fun t ht => by cases ht⟩
  | some t =>
    refine ⟨hid, ?_, ?_⟩
    · intro h; cases h
    · intro t' ht' hne
      injection ht' with ht'
      subst ht'
      show (if t = [] then "entry".data else t) = t
      rw [if_neg hne]

/-- Witness for `C4_dated_id_template`: base name `"my-post"`, date
2019-04-02, no template in front matter; the id comes out as
`"2019/my-post"` and the template as `"entry"`. -/
theorem C4_dated_id_template_witness :
    "my-post".data ≠ [] ∧ '/' ∉ "my-post".data ∧
    1 ≤ (⟨2019, 4, 2⟩ : PDate).year ∧
    (contentPage false "my-post".data (some ⟨2019, 4, 2⟩) none).id =
      "2019/my-post".data ∧
    (contentPage false "my-post".data (some ⟨2019, 4, 2⟩) none).template =
      "entry".data := by
  have h := C4_dated_id_template false "my-post".data ⟨2019, 4, 2⟩ none
    (by decide) (by decide) (by decide)
  refine ⟨by decide, by decide, by decide, ?_, h.2.1 rfl⟩
  rw [h.1]
  decide

/-! ## The asset synchronizer (`build`, lines 201-215)

```
for root, _, files in os.walk(os.curdir):
    mkdir(path.normpath(path.join(deploy_path, root)))
    for fname in files:
        if excludes.match(fname) and not includes.match(fname):
            continue
        src, dest = path.join(root, fname), path.join(deploy_path, root, fname)
        ext = path.splitext(fname)[1]
        if ext in site['files_rename']:
            dest = path.splitext(dest)[0] + site['files_rename'][ext]
        if path.isfile(dest) and path.getmtime(src) <= path.getmtime(dest):
            continue
        FILES_ACTIONS.get(ext, shutil.copy2)(src, dest)
```

A source file is its directory, base name, extension and modification time.
The exclude/include regex matches, the rename table and the set of
extensions with a registered external transform are parameters.  The
destination tree is a mapping from destination path to modification time.
`shutil.copy2` copies the file and preserves the source's mtime on the
destination; an external transform (`lessc`) writes the destination at the
wall-clock time of the run, modelled by a single `now` with the hypothesis
that no source was modified after it.  Each run returns the destination
tree and the number of files processed (transformed or copied, as opposed
to skipped). -/

structure SrcFile where
  dir : List Char
  base : List Char
  ext : List Char
  mtime : Nat
deriving DecidableEq

structure SyncEnv where
  excl : List Char → Bool
  incl : List Char → Bool
  rename : List (List Char × List Char)
  transforms : List (List Char)

def alookup {α : Type} : List (List Char × α) → List Char → Option α
  | [], _ => none
  | (k, v) :: r, i => if k = i then some v else alookup r i

abbrev DestFS := List (List Char × Nat)

/-- Create or overwrite the entry for destination path `k`. -/
def fsSet : DestFS → List Char → Nat → DestFS
  | [], k, v => [(k, v)]
  | (k0, v0) :: r, k, v => if k0 = k then (k, v) :: r else (k0, v0) :: fsSet r k v

def destPath (env : SyncEnv) (f : SrcFile) : List Char :=
  f.dir ++ '/' :: f.base ++
    (match alookup env.rename f.ext with
     | some e => e
     | none => f.ext)

/-- `excludes.match(fname) and not includes.match(fname)` -/
def skipName (env : SyncEnv) (f : SrcFile) : Bool :=
  env.excl (f.base ++ f.ext) && !env.incl (f.base ++ f.ext)

/-- Modification time of the freshly written destination: `copy2` preserves
the source mtime; an external transform writes at the current time. -/
def newMtime (env : SyncEnv) (now : Nat) (f : SrcFile) : Nat :=
  if f.ext ∈ env.transforms then now else f.mtime

def processFile (env : SyncEnv) (now : Nat) (fs : DestFS) (f : SrcFile) :
    DestFS × Bool :=
  if skipName env f then (fs, false)
  else
    match alookup fs (destPath env f) with
    | some m =>
        if f.mtime ≤ m then (fs, false)
        else (fsSet fs (destPath env f) (newMtime env now f), true)
    | none => (fsSet fs (destPath env f) (newMtime env now f), true)

/-- One full pass of the synchronizer over the walked file list, returning
the destination tree and the number of files processed. -/
def syncRun (env : SyncEnv) (now : Nat) : DestFS → List SrcFile → DestFS × Nat
  | fs, [] => (fs, 0)
  | fs, f :: rest =>
    let r := processFile env now fs f
    let t := syncRun env now r.1 rest
    (t.1, (if r.2 then 1 else 0) + t.2)

/-- A file the next pass will skip: either its name is excluded, or its
destination exists with a modification time at least the source's. -/
def upToDate (env : SyncEnv) (fs : DestFS) (f : SrcFile) : Prop :=
  skipName env f = true ∨
  ∃ m, alookup fs (destPath env f) = some m ∧ f.mtime ≤ m

theorem alookup_fsSet_self {fs : DestFS} {k : List Char} {v : Nat} :
    alookup (fsSet fs k v) k = some v := by
  induction fs with
  | nil => simp [fsSet, alookup]
  | cons e r ih =>
    obtain ⟨k0, v0⟩ := e
    rw [fsSet]
    by_cases hk : k0 = k
    · rw [if_pos hk, alookup, if_pos rfl]
    · rw [if_neg hk, alookup, if_neg hk]
      exact ih

theorem alookup_fsSet_other {fs : DestFS} {k q : List Char} {v : Nat}
    (h : q ≠ k) : alookup (fsSet fs k v) q = alookup fs q := by
  have hk' : ¬(k = q) := fun hk => h hk.symm
  induction fs with
  | nil => simp [fsSet, alookup, hk']
  | cons e r ih =>
    obtain ⟨k0, v0⟩ := e
    by_cases hk : k0 = k
    · subst hk
      simp [fsSet, alookup, hk']
    · by_cases hq : k0 = q
      · subst hq
        simp [fsSet, alookup, hk]
      · simp [fsSet, alookup, hk, hq, ih]

theorem mtime_le_newMtime {env : SyncEnv} {now : Nat} {f : SrcFile}
    (h : f.mtime ≤ now) : f.mtime ≤ newMtime env now f := by
  rw [newMtime]
  by_cases ht : f.ext ∈ env.transforms
  · rw [if_pos ht]; exact h
  · rw [if_neg ht]

theorem processFile_mono {env : SyncEnv} {now : Nat} {fs : DestFS} {g : SrcFile}
    (hg : g.mtime ≤ now) {d : List Char} {m : Nat}
    (h : alookup fs d = some m) :
    ∃ m', alookup (processFile env now fs g).1 d = some m' ∧ m ≤ m' := by
  by_cases hskip : skipName env g = true
  · rw [processFile, if_pos hskip]; exact ⟨m, h, Nat.le_refl m⟩
  · cases hl : alookup fs (destPath env g) with
    | some m0 =>
      by_cases hle : g.mtime ≤ m0
      · simp only [processFile, if_neg hskip, hl, if_pos hle]
        exact ⟨m, h, Nat.le_refl m⟩
      · simp only [processFile, if_neg hskip, hl, if_neg hle]
        by_cases hd : d = destPath env g
        · subst hd
          rw [h] at hl
          injection hl with hl
          subst hl
          exact ⟨newMtime env now g, alookup_fsSet_self,
            Nat.le_trans (Nat.le_of_lt (Nat.lt_of_not_le hle)) (mtime_le_newMtime hg)⟩
        · exact ⟨m, by rw [alookup_fsSet_other hd]; exact h, Nat.le_refl m⟩
    | none =>
      simp only [processFile, if_neg hskip, hl]
      by_cases hd : d = destPath env g
      · subst hd; rw [h] at hl; cases hl
      · exact ⟨m, by rw [alookup_fsSet_other hd]; exact h, Nat.le_refl m⟩

theorem processFile_upToDate_self {env : SyncEnv} {now : Nat} {fs : DestFS}
    {g : SrcFile} (hg : g.mtime ≤ now) :
    upToDate env (processFile env now fs g).1 g := by
  by_cases hskip : skipName env g = true
  · rw [processFile, if_pos hskip]; exact Or.inl hskip
  · cases hl : alookup fs (destPath env g) with
    | some m0 =>
      by_cases hle : g.mtime ≤ m0
      · simp only [processFile, if_neg hskip, hl, if_pos hle]
        exact Or.inr ⟨m0, hl, hle⟩
      · simp only [processFile, if_neg hskip, hl, if_neg hle]
        exact Or.inr ⟨newMtime env now g, alookup_fsSet_self, mtime_le_newMtime hg⟩
    | none =>
      simp only [processFile, if_neg hskip, hl]
      exact Or.inr ⟨newMtime env now g, alookup_fsSet_self, mtime_le_newMtime hg⟩

theorem processFile_preserves_upToDate {env : SyncEnv} {now : Nat} {fs : DestFS}
    {g f : SrcFile} (hg : g.mtime ≤ now) (h : upToDate env fs f) :
    upToDate env (processFile env now fs g).1 f := by
  rcases h with h | ⟨m, hm, hle⟩
  · exact Or.inl h
  · rcases processFile_mono hg hm with ⟨m', hm', hmm⟩
    exact Or.inr ⟨m', hm', Nat.le_trans hle hmm⟩

theorem syncRun_preserves_upToDate {env : SyncEnv} {now : Nat} {f : SrcFile} :
    ∀ {files : List SrcFile} {fs : DestFS},
      (∀ g ∈ files, g.mtime ≤ now) → upToDate env fs f →
      upToDate env (syncRun env now fs files).1 f := by
  intro files
  induction files with
  | nil => intro fs _ h; exact h
  | cons g rest ih =>
    intro fs hall h
    rw [syncRun]
    exact ih (fun g' hg' => hall g' (List.mem_cons_of_mem _ hg'))
      (processFile_preserves_upToDate (hall g (by simp)) h)

theorem syncRun_upToDate_all {env : SyncEnv} {now : Nat} :
    ∀ {files : List SrcFile} {fs : DestFS},
      (∀ g ∈ files, g.mtime ≤ now) →
      ∀ f ∈ files, upToDate env (syncRun env now fs files).1 f := by
  intro files
  induction files with
  | nil => intro fs _ f hf; cases hf
  | cons g rest ih =>
    intro fs hall f hf
    rw [syncRun]
    rcases List.mem_cons.mp hf with hf | hf
    · subst hf
      exact syncRun_preserves_upToDate
        (fun g' hg' => hall g' (List.mem_cons_of_mem _ hg'))
        (processFile_upToDate_self (hall f (by simp)))
    · exact ih (fun g' hg' => hall g' (List.mem_cons_of_mem _ hg')) f hf

theorem processFile_skip {env : SyncEnv} {now : Nat} {fs : DestFS} {f : SrcFile}
    (h : upToDate env fs f) : processFile env now fs f = (fs, false) := by
  by_cases hskip : skipName env f = true
  · rw [processFile, if_pos hskip]
  · rcases h with h | ⟨m, hm, hle⟩
    · exact absurd h hskip
    · simp only [processFile, if_neg hskip, hm, if_pos hle]

theorem syncRun_of_all_upToDate {env : SyncEnv} {now : Nat} :
    ∀ {files : List SrcFile} {fs : DestFS},
      (∀ f ∈ files, upToDate env fs f) → syncRun env now fs files = (fs, 0) := by
  intro files
  induction files with
  | nil => intro fs _; rfl
  | cons g rest ih =>
    intro fs hall
    rw [syncRun, processFile_skip (hall g (by simp))]
    rw [ih (fun f hf => hall f (List.mem_cons_of_mem _ hf))]
    rfl

/-- C9: running the asset synchronizer a second time immediately after a
completed run, with no source changes in between, performs zero transforms
or copies: after the first run every destination's modification time is at
least its source's, so the second run skips every file and leaves the
destination tree unchanged.  The hypothesis states that no source file was
modified after the wall-clock time `now` of the first run. -/
theorem C9_second_run_no_work (env : SyncEnv) (now now2 : Nat) (fs0 : DestFS)
    (files : List SrcFile) (h : ∀ f ∈ files, f.mtime ≤ now) :
    syncRun env now2 (syncRun env now fs0 files).1 files =
      ((syncRun env now fs0 files).1, 0) :=
  syncRun_of_all_upToDate (syncRun_upToDate_all h)

/-- Witness for `C9_second_run_no_work`: one `.png` file copied into an
empty destination tree, with no excludes, renames or transforms. -/
theorem C9_second_run_no_work_witness :
    (∀ f ∈ [SrcFile.mk "assets".data "logo".data ".png".data 5], f.mtime ≤ 10) ∧
    syncRun ⟨fun _ => false, fun _ => false, [], []⟩ 20
        (syncRun ⟨fun _ => false, fun _ => false, [], []⟩ 10 []
          [SrcFile.mk "assets".data "logo".data ".png".data 5]).1
        [SrcFile.mk "assets".data "logo".data ".png".data 5] =
      ((syncRun ⟨fun _ => false, fun _ => false, [], []⟩ 10 []
          [SrcFile.mk "assets".data "logo".data ".png".data 5]).1, 0) := by
  refine ⟨by decide, ?_⟩
  exact C9_second_run_no_work ⟨fun _ => false, fun _ => false, [], []⟩ 10 20 []
    [SrcFile.mk "assets".data "logo".data ".png".data 5] (by decide)

end Pilcrow
